import Mathlib

/- Verification development for the backup scheduler engine of the
   tp1-distro repository.  The Lean definitions below are shallow
   embeddings of the Python sources
   backup_server/src/backup_scheduler/backup_scheduler.py and
   backup_server/src/backup_scheduler/node_handler_process.py.
   Machine times are modelled exactly: wall-clock instants carry integer
   precision in seconds (for the schedule check) or in microseconds (for
   the write-path timestamps), and the float divisions of the source are
   modelled over the rationals, which is exact for the values involved. -/

namespace BackupSpec

/- Constants of backup_scheduler.py (lines 16-19) and of the Python
   timedelta normalization. -/

def SECONDS_TO_MINUTES : ℤ := 60

def MAX_FINISHED_TASKS_TO_STORE : ℕ := 10

def SECONDS_PER_DAY : ℤ := 86400

/-- Python timedelta normalizes its fields so that the seconds attribute
always lies in [0, 86400): for a difference of two instants it is the
total elapsed seconds reduced modulo one day (Int.emod has exactly this
range for a positive modulus). -/
def timedelta_seconds (delta : ℤ) : ℤ := delta % SECONDS_PER_DAY

/- ScheduledTask (backup_scheduler.py lines 22-38).  last_backup is the
   wall-clock instant of the newest finished task in whole seconds;
   none models the Python None. -/

structure ScheduledTask where
  node_name : String
  node_address : String
  node_port : ℕ
  node_path : String
  frequency : ℤ
  last_checksum : String
  last_backup : Option ℤ := none
deriving DecidableEq

/-- Embedding of ScheduledTask.should_run (lines 31-38): true when
last_backup is None, otherwise when
(now - last_backup).seconds / 60 > frequency, evaluated with exact
(rational) division as in the source float arithmetic. -/
def ScheduledTask.should_run (t : ScheduledTask) (now : ℤ) : Bool :=
  match t.last_backup with
  | none => true
  | some lb =>
      decide ((t.frequency : ℚ) <
        (timedelta_seconds (now - lb) : ℚ) / (SECONDS_TO_MINUTES : ℚ))

/-- The reading of should_run asserted by claim C1: the full wall-clock
elapsed time (not reduced modulo one day), expressed in minutes, is
compared against the frequency. -/
def claimedShouldRun (t : ScheduledTask) (now : ℤ) : Bool :=
  match t.last_backup with
  | none => true
  | some lb =>
      decide ((t.frequency : ℚ) < ((now - lb : ℤ) : ℚ) / (SECONDS_TO_MINUTES : ℚ))

abbrev ReplyData := Option String

/-- Outcome of the try block of _handle_client_request: on an exception
it carries the message together with the value the data variable has at
that moment. -/
def tryCommandBody (parse : Except String (ReplyData × Bool))
    (reloadClean : Except String Unit) : Except (String × ReplyData) ReplyData :=
  match parse with
  | .error e => .error (e, none)
  | .ok (data, tasksChanged) =>
      if tasksChanged then
        match reloadClean with
        | .error e => .error (e, data)
        | .ok _ => .ok data
      else .ok data

/-- Embedding of _handle_client_request (lines 147-163): the except
branch sends the error envelope, and the trailing send of the OK reply
is unconditional in the source (it is not in an else branch), so it runs
on the failure path as well.  The returned list is the sequence of
messages sent on the answer pipe, in order. -/
def handle_client_request (parse : Except String (ReplyData × Bool))
    (reloadClean : Except String Unit) : List (String × ReplyData) :=
  match tryCommandBody parse reloadClean with
  | .error (e, data) => [("Error " ++ e ++ ":", data), ("OK", data)]
  | .ok data => [("OK", data)]

/-- The replies of _handle_client_request as the source actually sends
them, case by case over the outcomes of the adapter and of the
rebuild-plus-GC step. -/
def amendedReplies (parse : Except String (ReplyData × Bool))
    (reloadClean : Except String Unit) : List (String × ReplyData) :=
  match parse with
  | .error e => [("Error " ++ e ++ ":", none), ("OK", none)]
  | .ok (data, tasksChanged) =>
      if tasksChanged then
        match reloadClean with
        | .error e => [("Error " ++ e ++ ":", data), ("OK", data)]
        | .ok _ => [("OK", data)]
      else [("OK", data)]

def base64Alphabet : List Char :=
  ((List.range 26).map fun i => Char.ofNat (65 + i)) ++
    ((List.range 26).map fun i => Char.ofNat (97 + i)) ++
    ((List.range 10).map fun i => Char.ofNat (48 + i)) ++ ['-', '_']

def b64Char (n : ℕ) : Char := base64Alphabet.getD n '?'

/-- Standard base64 of a byte list: groups of three bytes become four
alphabet characters, a trailing group of one or two bytes is padded with
the equals sign. -/
def b64EncodeBytes : List ℕ → List Char
  | [] => []
  | [a] => [b64Char (a / 4), b64Char (a % 4 * 16), '=', '=']
  | [a, b] => [b64Char (a / 4), b64Char (a % 4 * 16 + b / 16), b64Char (b % 16 * 4), '=']
  | a :: b :: c :: rest =>
      b64Char (a / 4) :: b64Char (a % 4 * 16 + b / 16) ::
        b64Char (b % 16 * 4 + c / 64) :: b64Char (c % 64) :: b64EncodeBytes rest

def safe_base64 (text : String) : String :=
  String.mk (b64EncodeBytes (text.data.map Char.toNat))

/- The %d directive of WRITE_FILE_PATH_TEMPLATE (backup_scheduler.py
   line 17) renders int(x) of its float argument in decimal.  The
   decimal rendering is spelled out below so that every step is
   kernel-computable. -/

def natToDecimalAux : ℕ → ℕ → List Char
  | 0, _ => []
  | fuel + 1, n =>
      if n = 0 then []
      else natToDecimalAux fuel (n / 10) ++ [Char.ofNat (48 + n % 10)]

def natToDecimal (n : ℕ) : String :=
  if n = 0 then "0" else String.mk (natToDecimalAux (n + 1) n)

def intToDecimal (i : ℤ) : String :=
  if i < 0 then "-" ++ natToDecimal (-i).toNat else natToDecimal i.toNat

def MICROS_PER_SECOND : ℕ := 1000000

/-- Python int() truncation toward zero, as applied by the %d directive
to the float unix timestamp of datetime.timestamp(); the instant is
modelled exactly as a count of microseconds, which is the resolution of
Python datetime. -/
def percentD_micros (tsMicros : ℤ) : ℤ :=
  if 0 ≤ tsMicros then ((tsMicros.toNat / MICROS_PER_SECOND : ℕ) : ℤ)
  else -(((-tsMicros).toNat / MICROS_PER_SECOND : ℕ) : ℤ)

/-- Embedding of WRITE_FILE_PATH_TEMPLATE percent-formatted at dispatch
time (backup_scheduler.py lines 211-214): the template
%s/backup_%d_%s_%s applied to the backup path, the float utc unix
timestamp, the node name and the safe base64 of the node path. -/
def write_file_path (backupPath : String) (tsMicros : ℤ)
    (nodeName nodePath : String) : String :=
  backupPath ++ "/" ++ "backup_" ++ intToDecimal (percentD_micros tsMicros) ++ "_" ++
    nodeName ++ "_" ++ safe_base64 nodePath

def takeBeforeFirstDot (s : String) : String :=
  String.mk (s.data.takeWhile (fun c => decide (c ≠ '.')))

/-- The candidate prefix the GC computes for a directory entry
(backup_scheduler.py line 111). -/
def gc_entry_key (backupPath f : String) : String :=
  backupPath ++ "/" ++ takeBeforeFirstDot f

/-- The basename of a generated write path: everything after the
backup-path directory component. -/
def backup_file_name (tsMicros : ℤ) (nodeName nodePath : String) : String :=
  "backup_" ++ intToDecimal (percentD_micros tsMicros) ++ "_" ++
    nodeName ++ "_" ++ safe_base64 nodePath

/-- Modelled from the spec: the FinishedTask entity
(src/database/entities/finished_task.py is not among the provided
sources): an immutable record of result_path, kb_size, timestamp and
checksum (spec section 3). -/
structure FinishedTask where
  result_path : String
  kb_size : ℚ
  timestamp : ℤ
  checksum : String
deriving DecidableEq

/-- Modelled from the spec: the persistent store interface consumed by
the scheduler (src/database/database.py is not among the provided
sources): node names, per-node address, per-node task list and the
newest-first finished-task history per (node, path) (spec section 6). -/
structure Database where
  node_names : List String
  node_address : String → String × ℕ
  tasks_for_node : String → List (String × ℤ)
  node_finished_tasks : String → String → List FinishedTask

/-- Modelled from the spec: register_finished_task appends the record at
the front of the per (node, path) history (spec section 6, store
interface). -/
def Database.register_finished_task (db : Database) (node path : String)
    (ft : FinishedTask) : Database :=
  { db with node_finished_tasks := fun n p =>
      if n = node ∧ p = path then ft :: db.node_finished_tasks n p
      else db.node_finished_tasks n p }

/-- Embedding of the Valid prefix set built by _clean_backup_path
(backup_scheduler.py lines 102-108): the result paths of the first
MAX_FINISHED_TASKS_TO_STORE entries of the newest-first history of every
configured (node, path), together with the write paths of the running
tasks; membership in the Python set is modelled by list membership. -/
def valid_file_prefixes (db : Database) (runningWritePaths : List String) : List String :=
  (db.node_names.flatMap fun node =>
    (db.tasks_for_node node).flatMap fun task =>
      ((db.node_finished_tasks node task.1).take MAX_FINISHED_TASKS_TO_STORE).map
        FinishedTask.result_path) ++ runningWritePaths

/-- The files_to_delete list of _clean_backup_path (lines 109-111): the
directory entries whose recovered key is not a valid prefix. -/
def gc_files_to_delete (db : Database) (runningWritePaths : List String)
    (backupPath : String) (filesInDirectory : List String) : List String :=
  filesInDirectory.filter fun f =>
    decide (gc_entry_key backupPath f ∉ valid_file_prefixes db runningWritePaths)

/-- The directory contents after _clean_backup_path removed every entry
of files_to_delete (lines 112-113). -/
def gc_remaining (db : Database) (runningWritePaths : List String)
    (backupPath : String) (filesInDirectory : List String) : List String :=
  filesInDirectory.filter fun f =>
    decide (f ∉ gc_files_to_delete db runningWritePaths backupPath filesInDirectory)

/-- A concrete store for the witnesses: one node n1 at port 1234, one
configured task for path /etc, one finished task whose artifact is
backup_100_n1_Lw== in directory /b. -/
def exampleDatabase : Database where
  node_names := ["n1"]
  node_address := fun _ => ("127.0.0.1", 1234)
  tasks_for_node := fun n => if n = "n1" then [("/etc", 1)] else []
  node_finished_tasks := fun n p =>
    if n = "n1" ∧ p = "/etc" then [⟨"/b/backup_100_n1_Lw==", 1, 0, "h"⟩] else []

def exampleDirectory : List String :=
  ["backup_100_n1_Lw==", "backup_100_n1_Lw==.CORRECT", "backup_200_n1_Lw=="]

def DEFAULT_SOCKET_BUFFER_SIZE : ℕ := 4096

def receive_file_loop (recvLen : ℕ → ℕ) : ℕ → ℤ → ℕ → Option ℕ
  | 0, fileSize, i => if fileSize ≤ 0 then some i else none
  | fuel + 1, fileSize, i =>
      if fileSize ≤ 0 then some i
      else receive_file_loop recvLen fuel (fileSize - (recvLen i : ℤ)) (i + 1)

structure RunningTaskFs where
  write_file_path : String
  alive : Bool
  correct_file : Bool
  same_file : Bool
  artifact_kb_size : ℚ
  artifact_hash : String
deriving DecidableEq

inductive PyError where
  | indexOutOfRange
deriving DecidableEq

/-- Embedding of _dispatch_running_tasks: alive tasks are kept; for an
exited task, backup_is_correct is consulted first (the CORRECT
sentinel), then backup_is_same (the SAME sentinel); the SAME branch
reads the head of the finished-task history for that (node, path), which
raises an index error when the history is empty; the failed branch only
removes files.  registered finished tasks go to the front of the
history. -/
def dispatch_running_tasks (now : ℤ) :
    Database → List ((String × String) × RunningTaskFs) →
      Except PyError (Database × List ((String × String) × RunningTaskFs))
  | db, [] => .ok (db, [])
  | db, (key, t) :: rest =>
      if t.alive then
        match dispatch_running_tasks now db rest with
        | .ok (db', kept) => .ok (db', (key, t) :: kept)
        | .error e => .error e
      else if t.correct_file then
        dispatch_running_tasks now
          (db.register_finished_task key.1 key.2
            ⟨t.write_file_path, t.artifact_kb_size, now, t.artifact_hash⟩) rest
      else if t.same_file then
        match db.node_finished_tasks key.1 key.2 with
        | [] => .error .indexOutOfRange
        | prev :: _ =>
            dispatch_running_tasks now
              (db.register_finished_task key.1 key.2
                ⟨prev.result_path, prev.kb_size, now, prev.checksum⟩) rest
      else
        dispatch_running_tasks now db rest

/- The dispatcher _run_new_tasks (backup_scheduler.py lines 197-224).
   The running-task dict is an association list keyed by (node, path),
   and the deque has its left end at the list head: appendleft is cons
   and pop takes the last element.  Each dispatch consults the wall
   clock; the successive instants are supplied by clockMicros, indexed
   by a counter of dispatches performed. -/

abbrev TaskKey := String × String

abbrev QueueTriple := String × String × String

def tripleKey (t : QueueTriple) : TaskKey := (t.1, t.2.1)

/-- Insert into the running-task dict: an existing key has its value
replaced, a new key is appended, as in a Python dict assignment. -/
def dictInsert (k : TaskKey) (v : String) (d : List (TaskKey × String)) :
    List (TaskKey × String) :=
  if k ∈ d.map Prod.fst then
    d.map fun kv => if kv.1 = k then (k, v) else kv
  else d ++ [(k, v)]

structure RunState where
  running : List (TaskKey × String)
  queue : List QueueTriple
  clock : ℕ
deriving DecidableEq

/-- Observable events of one _run_new_tasks call, instrumented with the
number of running tasks right after each primitive step, so that the
concurrency bound can be stated for every intermediate state, and with
whether a dispatched key was already present in the running dict. -/
inductive SchedulerEvent where
  | enqueued (triple : QueueTriple) (runningCount : ℕ)
  | dispatched (key : TaskKey) (alreadyRunning : Bool) (runningCount : ℕ)
deriving DecidableEq

def eventRunningCount : SchedulerEvent → ℕ
  | .enqueued _ n => n
  | .dispatched _ _ n => n

def eventDoubleDispatch : SchedulerEvent → Bool
  | .enqueued _ _ => false
  | .dispatched _ already _ => already

/-- One pop of the inner dispatch loop (lines 209-224): take the triple
at the tail of the queue, compute the write path at the current instant
and record the RunningTask under its (node, path) key. -/
def dispatchOnce (backupPath : String) (clockMicros : ℕ → ℤ) (st : RunState) :
    RunState × List SchedulerEvent :=
  match st.queue.getLast? with
  | none => (st, [])
  | some triple =>
      let key := tripleKey triple
      let wfp := write_file_path backupPath (clockMicros st.clock) triple.1 triple.2.1
      let already := decide (key ∈ st.running.map Prod.fst)
      let running' := dictInsert key wfp st.running
      (⟨running', st.queue.dropLast, st.clock + 1⟩,
        [SchedulerEvent.dispatched key already running'.length])

def dispatchBurst (backupPath : String) (clockMicros : ℕ → ℤ) :
    ℕ → RunState → RunState × List SchedulerEvent
  | 0, st => (st, [])
  | n + 1, st =>
      let p := dispatchOnce backupPath clockMicros st
      let q := dispatchBurst backupPath clockMicros n p.1
      (q.1, p.2 ++ q.2)

/-- The enqueue step of the outer loop (lines 204-206): push the triple
at the left end of the queue when the task is due and the triple is not
already queued. -/
def enqueue_step (now : ℤ) (st : RunState) (s : ScheduledTask) :
    RunState × List SchedulerEvent :=
  if s.should_run now = true ∧
      (s.node_name, s.node_path, s.last_checksum) ∉ st.queue then
    ((⟨st.running, (s.node_name, s.node_path, s.last_checksum) :: st.queue, st.clock⟩ :
        RunState),
      [SchedulerEvent.enqueued (s.node_name, s.node_path, s.last_checksum)
        st.running.length])
  else (st, ([] : List SchedulerEvent))

/-- One iteration of the outer for loop of _run_new_tasks for a single
ScheduledTask (lines 201-224): a task whose key is running is skipped
entirely (continue); otherwise the enqueue step runs, and then the inner
dispatch loop runs min(max_processes - len(running_tasks), len(queue))
times, the running count being read once before the burst as in the
source.  A Python negative difference yields an empty range, as does the
truncated Nat subtraction here. -/
def run_new_tasks_step (backupPath : String) (clockMicros : ℕ → ℤ)
    (maxProcesses : ℕ) (now : ℤ) (st : RunState) (s : ScheduledTask) :
    RunState × List SchedulerEvent :=
  if (s.node_name, s.node_path) ∈ st.running.map Prod.fst then (st, [])
  else
    let p := enqueue_step now st s
    let count := min (maxProcesses - p.1.running.length) p.1.queue.length
    let q := dispatchBurst backupPath clockMicros count p.1
    (q.1, p.2 ++ q.2)

/-- Embedding of _run_new_tasks (lines 197-224): the outer loop over the
schedule, each entry followed by its dispatch burst. -/
def run_new_tasks (backupPath : String) (clockMicros : ℕ → ℤ) (maxProcesses : ℕ)
    (now : ℤ) : List ScheduledTask → RunState → RunState × List SchedulerEvent
  | [], st => (st, [])
  | s :: rest, st =>
      let p := run_new_tasks_step backupPath clockMicros maxProcesses now st s
      let q := run_new_tasks backupPath clockMicros maxProcesses now rest p.1
      (q.1, p.2 ++ q.2)

/-- One iteration of the main scheduler loop after the command poll
(lines 246-250): reap the running tasks, then dispatch new work; an
exception raised by the reap step propagates out of the while body,
which has no handler of its own, and aborts the scheduler. -/
def scheduler_loop_iteration (backupPath : String) (clockMicros : ℕ → ℤ)
    (maxProcesses : ℕ) (now : ℤ) (db : Database) (schedule : List ScheduledTask)
    (running : List ((String × String) × RunningTaskFs)) (queue : List QueueTriple)
    (clock : ℕ) :
    Except PyError (Database × RunState × List SchedulerEvent) :=
  match dispatch_running_tasks now db running with
  | .error e => .error e
  | .ok (db', kept) =>
      let st : RunState := ⟨kept.map fun kt => (kt.1, kt.2.write_file_path), queue, clock⟩
      let q := run_new_tasks backupPath clockMicros maxProcesses now schedule st
      .ok (db', q.1, q.2)

def queueKeys (q : List QueueTriple) : List TaskKey := q.map tripleKey

/-- State invariant of the dispatcher: the running dict has pairwise
distinct keys, the queue holds at most one triple per (node, path), and
no queued key is currently running. -/
def RunInv (st : RunState) : Prop :=
  (st.running.map Prod.fst).Nodup ∧ (queueKeys st.queue).Nodup ∧
    ∀ t ∈ st.queue, tripleKey t ∉ st.running.map Prod.fst

def c4TaskChecksum1 : ScheduledTask :=
  ScheduledTask.mk "n" "addr" 1 "p" 1 "c1" none

def c4TaskChecksum2 : ScheduledTask :=
  ScheduledTask.mk "n" "addr" 1 "p" 1 "c2" none

/-- A state in which two unrelated tasks occupy both worker slots, so
that an enqueued triple stays queued. -/
def c4FullState : RunState :=
  RunState.mk [(("a", "x"), "wA"), (("b", "y"), "wB")] [] 0

/-- Exact characterization of the float comparison of should_run over the
integers: s / 60 > f holds iff 60 * f < s. -/
theorem rat_lt_div_sixty_iff (f s : ℤ) :
    ((f : ℚ) < (s : ℚ) / (SECONDS_TO_MINUTES : ℚ)) ↔ SECONDS_TO_MINUTES * f < s := by
  have h60 : ((SECONDS_TO_MINUTES : ℤ) : ℚ) > 0 := by norm_num [SECONDS_TO_MINUTES]
  rw [lt_div_iff₀ h60, mul_comm (SECONDS_TO_MINUTES : ℤ) f]
  constructor
  · intro h
    exact_mod_cast h
  · intro h
    exact_mod_cast h

/-- Claim C1 as frozen is refuted at an elapsed time of exactly one day:
with frequency one minute and a last backup at instant 0, the code
returns false at instant 86400 (the seconds attribute of the timedelta
has wrapped to 0) while the claimed wall-clock reading returns true. -/
theorem C1_should_run_day_wrap_counterexample :
    (ScheduledTask.mk "n1" "addr" 1 "/etc" 1 "" (some 0)).should_run 86400 = false ∧
    claimedShouldRun (ScheduledTask.mk "n1" "addr" 1 "/etc" 1 "" (some 0)) 86400 = true := by
  constructor
  · have h : ((1 : ℤ) : ℚ) < ((timedelta_seconds (86400 - 0) : ℤ) : ℚ) /
        ((SECONDS_TO_MINUTES : ℤ) : ℚ) ↔ False := by
      rw [rat_lt_div_sixty_iff]
      norm_num [timedelta_seconds, SECONDS_PER_DAY, SECONDS_TO_MINUTES]
    simp only [ScheduledTask.should_run, h]
    exact decide_eq_false (by simp)
  · have h : ((1 : ℤ) : ℚ) < (((86400 : ℤ) - 0 : ℤ) : ℚ) /
        ((SECONDS_TO_MINUTES : ℤ) : ℚ) := by
      rw [rat_lt_div_sixty_iff]
      norm_num [SECONDS_TO_MINUTES]
    simp only [claimedShouldRun]
    exact decide_eq_true h

/-- Claim C1, amended: should_run returns true iff last_backup is absent
or the elapsed wall-clock time reduced modulo one day (the Python
timedelta seconds attribute), expressed in minutes, strictly exceeds
frequency; for elapsed times under one day this coincides with the
claimed wall-clock reading, and at one day or more it wraps. -/
theorem C1_should_run_amended (t : ScheduledTask) (now : ℤ) :
    t.should_run now = true ↔
      (t.last_backup = none ∨
        ∃ lb, t.last_backup = some lb ∧
          SECONDS_TO_MINUTES * t.frequency < (now - lb) % SECONDS_PER_DAY) := by
  match h : t.last_backup with
  | none => simp [ScheduledTask.should_run, h]
  | some lb =>
      simp only [ScheduledTask.should_run, h, decide_eq_true_eq,
        rat_lt_div_sixty_iff, timedelta_seconds]
      constructor
      · intro hlt
        exact Or.inr ⟨lb, rfl, hlt⟩
      · rintro (hc | ⟨lb', hlb', hlt⟩)
        · exact absurd hc (by simp)
        · cases Option.some.inj hlb'
          exact hlt

/- Control-request handling (backup_scheduler.py lines 147-163).  The
   command adapter (ClientRequestHandler.parse_command together with the
   tuple unpacking of the request) and the schedule rebuild plus GC
   performed when tasks changed are external effects from the point of
   view of the reply protocol; they are passed in as their outcomes: a
   Python exception is an error value carrying str(e).  The data reply
   slot starts as None and is only assigned by a successful
   parse_command, so an adapter failure reports data = none while a
   failure of the rebuild/GC step reports the already assigned data. -/

/-- Claim C2 as frozen is refuted when the adapter raises: the loop then
sends two replies, the error envelope followed by an additional OK
reply, rather than exactly one. -/
theorem C2_error_reply_counterexample :
    handle_client_request (.error "boom") (.ok ()) =
      [("Error boom:", none), ("OK", none)] ∧
    (handle_client_request (.error "boom") (.ok ())).length = 2 := by
  constructor
  · rfl
  · rfl

/-- Claim C2, amended: on success exactly one reply, namely OK with the
adapter data, is sent; when the adapter (or the schedule rebuild and GC
that follow a mutating command) raises, two replies are sent, the
envelope with status Error followed by a colon and then an additional OK
reply carrying the same data. -/
theorem C2_handle_client_request_amended (parse : Except String (ReplyData × Bool))
    (reloadClean : Except String Unit) :
    handle_client_request parse reloadClean = amendedReplies parse reloadClean := by
  match parse with
  | .error e => rfl
  | .ok (data, tasksChanged) =>
      match tasksChanged with
      | false => rfl
      | true =>
          match reloadClean with
          | .error e => rfl
          | .ok _ => rfl

/- safe_base64 (backup_scheduler.py lines 138-145): base64.b64encode of
   the ascii bytes of the text, with the altchars argument substituting
   a dash for plus and an underscore for slash. -/

/-- Claim C7 as frozen is refuted: two dispatch instants that differ by
half a second produce the same write path, so the timestamp component
carries no sub-second precision; the %d directive truncates the float
timestamp to whole seconds, as the explicit rendering shows. -/
theorem C7_write_path_truncation_counterexample :
    write_file_path "/backups" 100000000 "n1" "/etc" =
      write_file_path "/backups" 100500000 "n1" "/etc" ∧
    (100000000 : ℤ) ≠ 100500000 ∧
    write_file_path "/backups" 100500000 "n1" "/etc" =
      "/backups/backup_100_n1_L2V0Yw==" := by
  refine ⟨rfl, by decide, rfl⟩

/-- Claim C7, amended: the generated write path follows the template
backup path, slash, the word backup, the unix timestamp truncated to
whole seconds (the floor of the float timestamp, all sub-second
precision discarded by the %d directive), the node name and the safe
base64 of the node path, joined by underscores. -/
theorem C7_write_path_amended (backupPath : String) (tsMicros : ℤ)
    (nodeName nodePath : String) (h : 0 ≤ tsMicros) :
    write_file_path backupPath tsMicros nodeName nodePath =
      backupPath ++ "/" ++ "backup_" ++
        intToDecimal ⌊(tsMicros : ℚ) / (MICROS_PER_SECOND : ℚ)⌋ ++ "_" ++
        nodeName ++ "_" ++ safe_base64 nodePath := by
  have hfloor : percentD_micros tsMicros = ⌊(tsMicros : ℚ) / (MICROS_PER_SECOND : ℚ)⌋ := by
    have hdiv := Rat.floor_intCast_div_natCast tsMicros MICROS_PER_SECOND
    rw [hdiv, percentD_micros, if_pos h]
    have hts : (tsMicros.toNat : ℤ) = tsMicros := Int.toNat_of_nonneg h
    simp only [MICROS_PER_SECOND] at hts ⊢
    omega
  rw [write_file_path, hfloor]

theorem C7_write_path_amended_witness :
    (0 : ℤ) ≤ 100500000 ∧
    write_file_path "/backups" 100500000 "n1" "/etc" =
      "/backups" ++ "/" ++ "backup_" ++
        intToDecimal ⌊((100500000 : ℤ) : ℚ) / (MICROS_PER_SECOND : ℚ)⌋ ++ "_" ++
        "n1" ++ "_" ++ safe_base64 "/etc" :=
  ⟨by norm_num, C7_write_path_amended "/backups" 100500000 "n1" "/etc" (by norm_num)⟩

/- The artifact GC (backup_scheduler.py lines 98-113) recovers, for a
   directory entry f, the key backup_path + "/" + f.split(".")[0]; the
   Python split on a dot takes the characters before the first dot, or
   the whole string when there is none. -/

theorem string_ext (s t : String) (h : s.data = t.data) : s = t := by
  cases s
  cases t
  exact congrArg String.mk h

theorem write_file_path_eq_dir_append (backupPath : String) (tsMicros : ℤ)
    (nodeName nodePath : String) :
    write_file_path backupPath tsMicros nodeName nodePath =
      backupPath ++ "/" ++ backup_file_name tsMicros nodeName nodePath := by
  apply string_ext
  simp [write_file_path, backup_file_name, String.data_append, List.append_assoc]

theorem b64Char_ne_dot (n : ℕ) : b64Char n ≠ '.' := by
  have hgd : b64Char n = (base64Alphabet.get? n).getD '?' := by
    simp [b64Char, List.getD, List.get?_eq_getElem?]
  rw [hgd]
  cases h : base64Alphabet.get? n with
  | none => simp
  | some c =>
      have hc : c ∈ base64Alphabet := List.get?_mem h
      have hall : ∀ x ∈ base64Alphabet, x ≠ '.' := by decide
      simpa using hall c hc

theorem b64EncodeBytes_ne_dot (bs : List ℕ) : ∀ c ∈ b64EncodeBytes bs, c ≠ '.' := by
  induction bs using b64EncodeBytes.induct with
  | case1 => simp [b64EncodeBytes]
  | case2 a =>
      intro c hc
      simp only [b64EncodeBytes, List.mem_cons, List.not_mem_nil, or_false] at hc
      rcases hc with rfl | rfl | rfl | rfl <;> first | exact b64Char_ne_dot _ | decide
  | case3 a b =>
      intro c hc
      simp only [b64EncodeBytes, List.mem_cons, List.not_mem_nil, or_false] at hc
      rcases hc with rfl | rfl | rfl | rfl <;> first | exact b64Char_ne_dot _ | decide
  | case4 a b d rest ih =>
      intro c hc
      simp only [b64EncodeBytes, List.mem_cons] at hc
      rcases hc with rfl | rfl | rfl | rfl | hc
      · exact b64Char_ne_dot _
      · exact b64Char_ne_dot _
      · exact b64Char_ne_dot _
      · exact b64Char_ne_dot _
      · exact ih c hc

theorem natToDecimalAux_ne_dot (fuel n : ℕ) : ∀ c ∈ natToDecimalAux fuel n, c ≠ '.' := by
  induction fuel generalizing n with
  | zero => simp [natToDecimalAux]
  | succ fuel ih =>
      intro c hc
      simp only [natToDecimalAux] at hc
      by_cases hn : n = 0
      · simp [hn] at hc
      · rw [if_neg hn] at hc
        rcases List.mem_append.mp hc with hrec | hdig
        · exact ih (n / 10) c hrec
        · have hm : n % 10 < 10 := Nat.mod_lt _ (by norm_num)
          have hdigit : ∀ m, m < 10 → Char.ofNat (48 + m) ≠ '.' := by decide
          rcases List.mem_singleton.mp hdig with rfl
          exact hdigit _ hm

theorem intToDecimal_ne_dot (i : ℤ) : ∀ c ∈ (intToDecimal i).data, c ≠ '.' := by
  have hnat : ∀ n : ℕ, ∀ c ∈ (natToDecimal n).data, c ≠ '.' := by
    intro n c hc
    by_cases hn : n = 0
    · simp [natToDecimal, hn] at hc
      subst hc
      decide
    · simp only [natToDecimal, if_neg hn] at hc
      exact natToDecimalAux_ne_dot (n + 1) n c hc
  intro c hc
  by_cases hi : i < 0
  · simp only [intToDecimal, if_pos hi, String.data_append, List.mem_append] at hc
    rcases hc with hminus | hrest
    · simp at hminus
      subst hminus
      decide
    · exact hnat _ c hrest
  · simp only [intToDecimal, if_neg hi] at hc
    exact hnat _ c hc

theorem backup_file_name_ne_dot (tsMicros : ℤ) (nodeName nodePath : String)
    (hdot : '.' ∉ nodeName.data) :
    ∀ c ∈ (backup_file_name tsMicros nodeName nodePath).data, c ≠ '.' := by
  intro c hc
  simp only [backup_file_name, String.data_append, List.mem_append, safe_base64] at hc
  have hback : ∀ x ∈ ("backup_" : String).data, x ≠ '.' := by decide
  have hund : ∀ x ∈ ("_" : String).data, x ≠ '.' := by decide
  rcases hc with ((((hb | hd) | hu) | hn) | hv) | h64
  · exact hback c hb
  · exact intToDecimal_ne_dot _ c hd
  · exact hund c hu
  · intro h
    subst h
    exact hdot hn
  · exact hund c hv
  · exact b64EncodeBytes_ne_dot _ c h64

theorem takeWhileNeDot_eq_self (l : List Char) (h : ∀ c ∈ l, c ≠ '.') :
    l.takeWhile (fun c => decide (c ≠ '.')) = l :=
  List.takeWhile_eq_self_iff.mpr (by
    intro c hc
    simpa using h c hc)

theorem takeWhileNeDot_append (l r : List Char) (h : ∀ c ∈ l, c ≠ '.') :
    (l ++ '.' :: r).takeWhile (fun c => decide (c ≠ '.')) = l := by
  induction l with
  | nil => simp [List.takeWhile_cons]
  | cons a as ih =>
      have ha : a ≠ '.' := h a (by simp)
      simp only [List.cons_append, List.takeWhile_cons, decide_eq_true_eq]
      rw [if_pos ha, ih (fun c hc => h c (by simp [hc]))]

/-- With a dot-free basename, appending a sentinel suffix that starts
with a dot and splitting on the first dot recovers the basename. -/
theorem takeBeforeFirstDot_sentinel (fn : String) (suffixRest : List Char)
    (h : ∀ c ∈ fn.data, c ≠ '.') :
    takeBeforeFirstDot (fn ++ String.mk ('.' :: suffixRest)) = fn := by
  apply string_ext
  simp only [takeBeforeFirstDot, String.data_append]
  exact takeWhileNeDot_append fn.data suffixRest h

/-- Claim C10: when the node name is dot-free the generated basename is
dot-free (the timestamp renders as decimal digits and safe base64 only
uses letters, digits, dash, underscore and the equals sign), so the GC
split-on-first-dot recovery maps the artifact and each sentinel back to
exactly the write path; and with a dot in the node name the recovery
fails, shown by a concrete instance. -/
theorem C10_gc_key_recovery (tsMicros : ℤ) (backupPath nodeName nodePath : String)
    (hdot : '.' ∉ nodeName.data) :
    (('.' ∉ (backup_file_name tsMicros nodeName nodePath).data) ∧
      gc_entry_key backupPath (backup_file_name tsMicros nodeName nodePath) =
        write_file_path backupPath tsMicros nodeName nodePath ∧
      gc_entry_key backupPath (backup_file_name tsMicros nodeName nodePath ++ ".WIP") =
        write_file_path backupPath tsMicros nodeName nodePath ∧
      gc_entry_key backupPath (backup_file_name tsMicros nodeName nodePath ++ ".CORRECT") =
        write_file_path backupPath tsMicros nodeName nodePath ∧
      gc_entry_key backupPath (backup_file_name tsMicros nodeName nodePath ++ ".SAME") =
        write_file_path backupPath tsMicros nodeName nodePath) ∧
    gc_entry_key "/b" (backup_file_name 0 "n.1" "/p") ≠ write_file_path "/b" 0 "n.1" "/p" := by
  have hfn := backup_file_name_ne_dot tsMicros nodeName nodePath hdot
  have hself : takeBeforeFirstDot (backup_file_name tsMicros nodeName nodePath) =
      backup_file_name tsMicros nodeName nodePath := by
    apply string_ext
    simp only [takeBeforeFirstDot]
    exact takeWhileNeDot_eq_self _ hfn
  refine ⟨⟨fun hmem => hfn '.' hmem rfl, ?_, ?_, ?_, ?_⟩, by decide⟩
  · rw [gc_entry_key, hself, write_file_path_eq_dir_append]
  · rw [gc_entry_key, takeBeforeFirstDot_sentinel _ ['W', 'I', 'P'] hfn,
      write_file_path_eq_dir_append]
  · rw [gc_entry_key,
      takeBeforeFirstDot_sentinel _ ['C', 'O', 'R', 'R', 'E', 'C', 'T'] hfn,
      write_file_path_eq_dir_append]
  · rw [gc_entry_key, takeBeforeFirstDot_sentinel _ ['S', 'A', 'M', 'E'] hfn,
      write_file_path_eq_dir_append]

theorem C10_gc_key_recovery_witness :
    ('.' ∉ ("n1" : String).data) ∧
    (('.' ∉ (backup_file_name 100500000 "n1" "/etc").data) ∧
      gc_entry_key "/backups" (backup_file_name 100500000 "n1" "/etc") =
        write_file_path "/backups" 100500000 "n1" "/etc" ∧
      gc_entry_key "/backups" (backup_file_name 100500000 "n1" "/etc" ++ ".WIP") =
        write_file_path "/backups" 100500000 "n1" "/etc" ∧
      gc_entry_key "/backups" (backup_file_name 100500000 "n1" "/etc" ++ ".CORRECT") =
        write_file_path "/backups" 100500000 "n1" "/etc" ∧
      gc_entry_key "/backups" (backup_file_name 100500000 "n1" "/etc" ++ ".SAME") =
        write_file_path "/backups" 100500000 "n1" "/etc") ∧
    gc_entry_key "/b" (backup_file_name 0 "n.1" "/p") ≠ write_file_path "/b" 0 "n.1" "/p" :=
  ⟨by decide, C10_gc_key_recovery 100500000 "/backups" "n1" "/etc" (by decide)⟩

/-- Every directory entry surviving the GC has a key in the valid set. -/
theorem gc_remaining_key_valid (db : Database) (runningWritePaths : List String)
    (backupPath : String) (filesInDirectory : List String) :
    ∀ f ∈ gc_remaining db runningWritePaths backupPath filesInDirectory,
      gc_entry_key backupPath f ∈ valid_file_prefixes db runningWritePaths := by
  intro f hf
  rw [gc_remaining, List.mem_filter] at hf
  obtain ⟨hmem, hnotdel⟩ := hf
  by_contra hnv
  have hdel : f ∈ gc_files_to_delete db runningWritePaths backupPath filesInDirectory :=
    List.mem_filter.mpr ⟨hmem, by simpa using hnv⟩
  rw [decide_eq_true_eq] at hnotdel
  exact hnotdel hdel

/-- Claim C5: after one GC run every remaining file in the backup
directory has its recovered key (backup path, slash, part of the name
before the first dot) in the valid set, and every file whose key is
outside the valid set has been deleted. -/
theorem C5_gc_deletes_exactly_invalid (db : Database) (runningWritePaths : List String)
    (backupPath : String) (filesInDirectory : List String) :
    (∀ f ∈ gc_remaining db runningWritePaths backupPath filesInDirectory,
      gc_entry_key backupPath f ∈ valid_file_prefixes db runningWritePaths) ∧
    (∀ f ∈ filesInDirectory,
      gc_entry_key backupPath f ∉ valid_file_prefixes db runningWritePaths →
        f ∉ gc_remaining db runningWritePaths backupPath filesInDirectory) := by
  refine ⟨gc_remaining_key_valid db runningWritePaths backupPath filesInDirectory, ?_⟩
  intro f hmem hnv hrem
  exact absurd (gc_remaining_key_valid db runningWritePaths backupPath filesInDirectory f hrem) hnv

theorem C5_gc_deletes_exactly_invalid_witness :
    ("backup_100_n1_Lw==.CORRECT" ∈ gc_remaining exampleDatabase [] "/b" exampleDirectory ∧
      gc_entry_key "/b" "backup_100_n1_Lw==.CORRECT" ∈ valid_file_prefixes exampleDatabase []) ∧
    ("backup_200_n1_Lw==" ∈ exampleDirectory ∧
      gc_entry_key "/b" "backup_200_n1_Lw==" ∉ valid_file_prefixes exampleDatabase [] ∧
      "backup_200_n1_Lw==" ∉ gc_remaining exampleDatabase [] "/b" exampleDirectory) :=
  ⟨⟨by decide,
      (C5_gc_deletes_exactly_invalid exampleDatabase [] "/b" exampleDirectory).1
        "backup_100_n1_Lw==.CORRECT" (by decide)⟩,
    ⟨by decide, by decide,
      (C5_gc_deletes_exactly_invalid exampleDatabase [] "/b" exampleDirectory).2
        "backup_200_n1_Lw==" (by decide) (by decide)⟩⟩

/-- Claim C9: with the same store, the same running tasks and no other
writes to the directory, a second GC run computes an empty
files_to_delete list, so it deletes nothing. -/
theorem C9_gc_second_run_deletes_nothing (db : Database) (runningWritePaths : List String)
    (backupPath : String) (filesInDirectory : List String) :
    gc_files_to_delete db runningWritePaths backupPath
      (gc_remaining db runningWritePaths backupPath filesInDirectory) = [] := by
  rw [gc_files_to_delete, List.filter_eq_nil_iff]
  intro f hf
  have hvalid := gc_remaining_key_valid db runningWritePaths backupPath filesInDirectory f hf
  simp [hvalid]

/- NodeHandlerProcess._receive_file_in (node_handler_process.py lines
   39-46): while file_size > 0, recv up to 4096 bytes, write the buffer
   to the file and subtract its length from file_size.  A recv on a
   stream whose peer has shut down returns an empty byte string, so the
   received length can be 0 and stay 0 forever.  The socket is modelled
   by the sequence of lengths its successive recv calls return; the loop
   is given explicit fuel and reports the number of completed iterations
   when it exits within the fuel, none otherwise. -/

/-- Claim C6 fails on the code: when the stream ends before the payload
is complete, every further recv returns the empty byte string, the
remaining size never decreases, and the receive loop never exits, for
any amount of fuel; the worker therefore does not terminate, instead of
ending in the FAILED state. -/
theorem C6_receive_loop_diverges_on_eof :
    ∀ fuel i : ℕ, receive_file_loop (fun _ => 0) fuel 1 i = none := by
  intro fuel
  induction fuel with
  | zero =>
      intro i
      simp [receive_file_loop]
  | succ fuel ih =>
      intro i
      simpa [receive_file_loop] using ih (i + 1)

/-- In contrast, whenever every recv during the transfer delivers at
least one byte, the loop terminates as soon as the fuel covers the
remaining byte count: divergence is possible only through empty reads. -/
theorem receive_file_loop_exits_on_positive_reads (recvLen : ℕ → ℕ)
    (hpos : ∀ j, 1 ≤ recvLen j) :
    ∀ (fuel : ℕ) (fileSize : ℤ) (i : ℕ), fileSize ≤ fuel →
      (receive_file_loop recvLen fuel fileSize i).isSome = true := by
  intro fuel
  induction fuel with
  | zero =>
      intro fileSize i hle
      rw [receive_file_loop, if_pos (by exact_mod_cast hle)]
      rfl
  | succ fuel ih =>
      intro fileSize i hle
      rw [receive_file_loop]
      by_cases hfs : fileSize ≤ 0
      · rw [if_pos hfs]
        rfl
      · rw [if_neg hfs]
        apply ih
        have := hpos i
        omega

theorem receive_file_loop_exits_on_positive_reads_witness :
    (∀ j : ℕ, 1 ≤ (fun _ => 2 : ℕ → ℕ) j) ∧ ((5 : ℤ) ≤ (5 : ℕ)) ∧
    (receive_file_loop (fun _ => 2) 5 5 0).isSome = true :=
  ⟨fun _ => by norm_num, by norm_num,
    receive_file_loop_exits_on_positive_reads (fun _ => 2) (fun _ => by norm_num) 5 5 0
      (by norm_num)⟩

/- The reaper _dispatch_running_tasks (backup_scheduler.py lines
   165-195).  Each running task is keyed by (node, path) and carries the
   state the scheduler can observe of it: the write path, whether the
   worker process is still alive, which sentinel files exist, and the
   size and hash of the artifact on disk.  The schedule reload and the
   GC the source performs after registering a finished task touch state
   that is not consulted again by the reaper itself and are left to the
   surrounding loop. -/

/-- Claim C8: reaping an exited worker whose SAME sentinel exists while
the store holds no FinishedTask for its (node, path) raises the index
error of the head access on the empty history list, and the error
escapes the loop iteration as a fatal failure. -/
theorem C8_same_reap_empty_history_fatal (backupPath : String) (clockMicros : ℕ → ℤ)
    (maxProcesses : ℕ) (now : ℤ) (db : Database) (schedule : List ScheduledTask)
    (key : String × String) (t : RunningTaskFs)
    (rest : List ((String × String) × RunningTaskFs)) (queue : List QueueTriple)
    (clock : ℕ) (halive : t.alive = false) (hcorrect : t.correct_file = false)
    (hsame : t.same_file = true)
    (hhist : db.node_finished_tasks key.1 key.2 = []) :
    scheduler_loop_iteration backupPath clockMicros maxProcesses now db schedule
      ((key, t) :: rest) queue clock = .error .indexOutOfRange := by
  have hd : dispatch_running_tasks now db ((key, t) :: rest) = .error .indexOutOfRange := by
    rw [dispatch_running_tasks]
    rw [if_neg (by simp [halive]), if_neg (by simp [hcorrect]), if_pos (by simp [hsame]),
      hhist]
  rw [scheduler_loop_iteration, hd]

theorem C8_same_reap_empty_history_fatal_witness :
    ((RunningTaskFs.mk "/b/w" false false true 1 "h").alive = false ∧
      (RunningTaskFs.mk "/b/w" false false true 1 "h").correct_file = false ∧
      (RunningTaskFs.mk "/b/w" false false true 1 "h").same_file = true ∧
      exampleDatabase.node_finished_tasks ("n2", "/x").1 ("n2", "/x").2 = []) ∧
    scheduler_loop_iteration "/b" (fun _ => 0) 1 0 exampleDatabase []
      [(("n2", "/x"), RunningTaskFs.mk "/b/w" false false true 1 "h")] [] 0 =
      .error .indexOutOfRange :=
  ⟨⟨rfl, rfl, rfl, rfl⟩,
    C8_same_reap_empty_history_fatal "/b" (fun _ => 0) 1 0 exampleDatabase []
      ("n2", "/x") (RunningTaskFs.mk "/b/w" false false true 1 "h") [] [] 0
      rfl rfl rfl rfl⟩

theorem dictInsert_length_le (k : TaskKey) (v : String) (d : List (TaskKey × String)) :
    (dictInsert k v d).length ≤ d.length + 1 := by
  rw [dictInsert]
  split_ifs with h
  · rw [List.length_map]
    omega
  · rw [List.length_append, List.length_singleton]

theorem dispatchBurst_bound (backupPath : String) (clockMicros : ℕ → ℤ) :
    ∀ (n : ℕ) (st : RunState),
      (dispatchBurst backupPath clockMicros n st).1.running.length ≤
        st.running.length + n ∧
      ∀ e ∈ (dispatchBurst backupPath clockMicros n st).2,
        eventRunningCount e ≤ st.running.length + n := by
  intro n
  induction n with
  | zero =>
      intro st
      simp [dispatchBurst]
  | succ n ih =>
      intro st
      rw [dispatchBurst]
      cases h : st.queue.getLast? with
      | none =>
          simp only [dispatchOnce, h]
          have := ih st
          constructor
          · omega
          · intro e he
            simp only [List.nil_append] at he
            have := (ih st).2 e he
            omega
      | some triple =>
          simp only [dispatchOnce, h]
          set st' : RunState :=
            ⟨dictInsert (tripleKey triple)
                (write_file_path backupPath (clockMicros st.clock) triple.1 triple.2.1)
                st.running,
              st.queue.dropLast, st.clock + 1⟩ with hst'
          have hlen : st'.running.length ≤ st.running.length + 1 :=
            dictInsert_length_le _ _ _
          have hcomp : (dictInsert (tripleKey triple)
              (write_file_path backupPath (clockMicros st.clock) triple.1 triple.2.1)
              st.running).length = st'.running.length := rfl
          have hih := ih st'
          constructor
          · omega
          · intro e he
            rcases List.mem_append.mp he with hone | hrest
            · rcases List.mem_singleton.mp hone with rfl
              simp only [eventRunningCount]
              omega
            · have := hih.2 e hrest
              omega

theorem run_new_tasks_step_bound (backupPath : String) (clockMicros : ℕ → ℤ)
    (maxProcesses : ℕ) (now : ℤ) (st : RunState) (s : ScheduledTask)
    (h : st.running.length ≤ maxProcesses) :
    (run_new_tasks_step backupPath clockMicros maxProcesses now st s).1.running.length ≤
      maxProcesses ∧
    ∀ e ∈ (run_new_tasks_step backupPath clockMicros maxProcesses now st s).2,
      eventRunningCount e ≤ maxProcesses := by
  rw [run_new_tasks_step]
  by_cases hmem : (s.node_name, s.node_path) ∈ st.running.map Prod.fst
  · rw [if_pos hmem]
    exact ⟨h, by simp⟩
  · rw [if_neg hmem]
    dsimp only
    have hrun : (enqueue_step now st s).1.running = st.running := by
      rw [enqueue_step]
      split_ifs <;> rfl
    have hevs : ∀ e ∈ (enqueue_step now st s).2, eventRunningCount e ≤ maxProcesses := by
      rw [enqueue_step]
      split_ifs
      · intro e he
        rcases List.mem_singleton.mp he with rfl
        simpa [eventRunningCount] using h
      · simp
    have hb := dispatchBurst_bound backupPath clockMicros
      (min (maxProcesses - (enqueue_step now st s).1.running.length)
        (enqueue_step now st s).1.queue.length) (enqueue_step now st s).1
    have hcount : min (maxProcesses - (enqueue_step now st s).1.running.length)
        (enqueue_step now st s).1.queue.length ≤
        maxProcesses - (enqueue_step now st s).1.running.length := Nat.min_le_left _ _
    have hlen₁ : (enqueue_step now st s).1.running.length = st.running.length := by
      rw [hrun]
    constructor
    · omega
    · intro e he
      rcases List.mem_append.mp he with hone | hrest
      · exact hevs e hone
      · have := hb.2 e hrest
        omega

/-- Claim C3: starting from a state within the concurrency bound, every
intermediate running count observed during _run_new_tasks, after each
enqueue and after each dispatch of the nested inner loop, stays at or
below max_processes, and so does the final state. -/
theorem C3_running_tasks_bounded (backupPath : String) (clockMicros : ℕ → ℤ)
    (maxProcesses : ℕ) (now : ℤ) (schedule : List ScheduledTask) (st : RunState)
    (h : st.running.length ≤ maxProcesses) :
    (∀ e ∈ (run_new_tasks backupPath clockMicros maxProcesses now schedule st).2,
      eventRunningCount e ≤ maxProcesses) ∧
    (run_new_tasks backupPath clockMicros maxProcesses now schedule st).1.running.length ≤
      maxProcesses := by
  induction schedule generalizing st with
  | nil =>
      rw [run_new_tasks]
      exact ⟨by simp, h⟩
  | cons s rest ih =>
      rw [run_new_tasks]
      have hstep := run_new_tasks_step_bound backupPath clockMicros maxProcesses now st s h
      have hrest := ih _ hstep.1
      refine ⟨?_, hrest.2⟩
      intro e he
      rcases List.mem_append.mp he with hstepEv | hrestEv
      · exact hstep.2 e hstepEv
      · exact hrest.1 e hrestEv

theorem C3_running_tasks_bounded_witness :
    (RunState.mk [] [("n1", "/a", ""), ("n2", "/b", ""), ("n3", "/c", "")] 0).running.length ≤ 2 ∧
    ((∀ e ∈ (run_new_tasks "/b" (fun _ => 0) 2 0
        [ScheduledTask.mk "n4" "addr" 1 "/d" 1 "" none]
        (RunState.mk [] [("n1", "/a", ""), ("n2", "/b", ""), ("n3", "/c", "")] 0)).2,
      eventRunningCount e ≤ 2) ∧
    (run_new_tasks "/b" (fun _ => 0) 2 0
        [ScheduledTask.mk "n4" "addr" 1 "/d" 1 "" none]
        (RunState.mk [] [("n1", "/a", ""), ("n2", "/b", ""), ("n3", "/c", "")] 0)).1.running.length ≤ 2) :=
  ⟨by decide,
    C3_running_tasks_bounded "/b" (fun _ => 0) 2 0
      [ScheduledTask.mk "n4" "addr" 1 "/d" 1 "" none]
      (RunState.mk [] [("n1", "/a", ""), ("n2", "/b", ""), ("n3", "/c", "")] 0) (by decide)⟩

theorem dictInsert_keys_of_not_mem (k : TaskKey) (v : String)
    (d : List (TaskKey × String)) (h : k ∉ d.map Prod.fst) :
    (dictInsert k v d).map Prod.fst = d.map Prod.fst ++ [k] := by
  rw [dictInsert, if_neg h, List.map_append]
  rfl

theorem dispatchOnce_inv (backupPath : String) (clockMicros : ℕ → ℤ) (st : RunState)
    (hinv : RunInv st) :
    RunInv (dispatchOnce backupPath clockMicros st).1 ∧
    (∀ e ∈ (dispatchOnce backupPath clockMicros st).2, eventDoubleDispatch e = false) ∧
    (∀ t ∈ (dispatchOnce backupPath clockMicros st).1.queue, t ∈ st.queue) := by
  cases h : st.queue.getLast? with
  | none =>
      simp only [dispatchOnce, h]
      exact ⟨hinv, by simp, fun t ht => ht⟩
  | some t₀ =>
      have hne : st.queue ≠ [] := by
        intro hnil
        rw [hnil] at h
        exact Option.noConfusion h
      have hlast : st.queue.getLast hne = t₀ := by
        rw [List.getLast?_eq_getLast st.queue hne] at h
        exact Option.some.inj h
      have hsplit : st.queue.dropLast ++ [t₀] = st.queue := by
        rw [← hlast]
        exact List.dropLast_append_getLast hne
      have hqk : queueKeys st.queue = queueKeys st.queue.dropLast ++ [tripleKey t₀] := by
        conv_lhs => rw [queueKeys, ← hsplit]
        rw [List.map_append]
        rfl
      have hqnodup := hinv.2.1
      rw [hqk] at hqnodup
      have hdropNodup : (queueKeys st.queue.dropLast).Nodup := by
        simp [List.nodup_append] at hqnodup
        exact hqnodup.1
      have hkeyNotInDrop : tripleKey t₀ ∉ queueKeys st.queue.dropLast := by
        simp [List.nodup_append] at hqnodup
        exact hqnodup.2
      have ht₀mem : t₀ ∈ st.queue := by
        rw [← hsplit]
        exact List.mem_append.mpr (Or.inr (by simp))
      have hkeyNotRunning : tripleKey t₀ ∉ st.running.map Prod.fst :=
        hinv.2.2 t₀ ht₀mem
      have hkeys' := dictInsert_keys_of_not_mem (tripleKey t₀)
        (write_file_path backupPath (clockMicros st.clock) t₀.1 t₀.2.1)
        st.running hkeyNotRunning
      simp only [dispatchOnce, h]
      refine ⟨⟨?_, ?_, ?_⟩, ?_, ?_⟩
      · rw [hkeys']
        simp only [List.nodup_append, List.nodup_cons, List.not_mem_nil, not_false_iff,
          List.nodup_nil, and_true, true_and]
        exact ⟨hinv.1, by simpa [List.disjoint_singleton] using hkeyNotRunning⟩
      · exact hdropNodup
      · intro t ht
        have htq : t ∈ st.queue := List.dropLast_subset st.queue ht
        have h1 : tripleKey t ∉ st.running.map Prod.fst := hinv.2.2 t htq
        have h2 : tripleKey t ≠ tripleKey t₀ := by
          intro heq
          exact hkeyNotInDrop (heq ▸ List.mem_map_of_mem tripleKey ht)
        rw [hkeys']
        simp only [List.mem_append, List.mem_singleton]
        rintro (hc | hc)
        · exact h1 hc
        · exact h2 hc
      · intro e he
        rcases List.mem_singleton.mp he with rfl
        simp only [eventDoubleDispatch, decide_eq_false_iff_not]
        exact hkeyNotRunning
      · intro t ht
        exact List.dropLast_subset st.queue ht

theorem dispatchBurst_inv (backupPath : String) (clockMicros : ℕ → ℤ) :
    ∀ (n : ℕ) (st : RunState), RunInv st →
      RunInv (dispatchBurst backupPath clockMicros n st).1 ∧
      (∀ e ∈ (dispatchBurst backupPath clockMicros n st).2,
        eventDoubleDispatch e = false) ∧
      (∀ t ∈ (dispatchBurst backupPath clockMicros n st).1.queue, t ∈ st.queue) := by
  intro n
  induction n with
  | zero =>
      intro st hinv
      rw [dispatchBurst]
      exact ⟨hinv, by simp, fun t ht => ht⟩
  | succ n ih =>
      intro st hinv
      rw [dispatchBurst]
      have honce := dispatchOnce_inv backupPath clockMicros st hinv
      have hrest := ih (dispatchOnce backupPath clockMicros st).1 honce.1
      refine ⟨hrest.1, ?_, ?_⟩
      · intro e he
        rcases List.mem_append.mp he with h1 | h2
        · exact honce.2.1 e h1
        · exact hrest.2.1 e h2
      · intro t ht
        exact honce.2.2 t (hrest.2.2 t ht)

theorem enqueue_step_inv (now : ℤ) (st : RunState) (s : ScheduledTask)
    (hinv : RunInv st) (hmem : (s.node_name, s.node_path) ∉ st.running.map Prod.fst)
    (hcohs : ∀ t ∈ st.queue, (s.node_name, s.node_path) = tripleKey t →
      (s.node_name, s.node_path, s.last_checksum) = t) :
    RunInv (enqueue_step now st s).1 ∧
    (∀ t ∈ (enqueue_step now st s).1.queue,
      t = (s.node_name, s.node_path, s.last_checksum) ∨ t ∈ st.queue) := by
  rw [enqueue_step]
  split_ifs with hc
  · have hkeyfresh : (s.node_name, s.node_path) ∉ queueKeys st.queue := by
      intro hin
      rcases List.mem_map.mp hin with ⟨t, htq, hkey⟩
      exact hc.2 (hcohs t htq hkey.symm ▸ htq)
    refine ⟨⟨hinv.1, ?_, ?_⟩, ?_⟩
    · rw [queueKeys, List.map_cons]
      exact List.nodup_cons.mpr ⟨hkeyfresh, hinv.2.1⟩
    · intro t ht
      rcases List.mem_cons.mp ht with rfl | htq
      · exact hmem
      · exact hinv.2.2 t htq
    · intro t ht
      rcases List.mem_cons.mp ht with rfl | htq
      · exact Or.inl rfl
      · exact Or.inr htq
  · exact ⟨hinv, fun t ht => Or.inr ht⟩

theorem run_new_tasks_step_inv (backupPath : String) (clockMicros : ℕ → ℤ)
    (maxProcesses : ℕ) (now : ℤ) (st : RunState) (s : ScheduledTask)
    (hinv : RunInv st)
    (hcohs : ∀ t ∈ st.queue, (s.node_name, s.node_path) = tripleKey t →
      (s.node_name, s.node_path, s.last_checksum) = t) :
    RunInv (run_new_tasks_step backupPath clockMicros maxProcesses now st s).1 ∧
    (∀ e ∈ (run_new_tasks_step backupPath clockMicros maxProcesses now st s).2,
      eventDoubleDispatch e = false) ∧
    (∀ t ∈ (run_new_tasks_step backupPath clockMicros maxProcesses now st s).1.queue,
      t = (s.node_name, s.node_path, s.last_checksum) ∨ t ∈ st.queue) := by
  rw [run_new_tasks_step]
  by_cases hmem : (s.node_name, s.node_path) ∈ st.running.map Prod.fst
  · rw [if_pos hmem]
    exact ⟨hinv, by simp, fun t ht => Or.inr ht⟩
  · rw [if_neg hmem]
    dsimp only
    have henq := enqueue_step_inv now st s hinv hmem hcohs
    have hburst := dispatchBurst_inv backupPath clockMicros
      (min (maxProcesses - (enqueue_step now st s).1.running.length)
        (enqueue_step now st s).1.queue.length) (enqueue_step now st s).1 henq.1
    have hevEnq : ∀ e ∈ (enqueue_step now st s).2, eventDoubleDispatch e = false := by
      rw [enqueue_step]
      split_ifs
      · intro e he
        rcases List.mem_singleton.mp he with rfl
        rfl
      · simp
    refine ⟨hburst.1, ?_, ?_⟩
    · intro e he
      rcases List.mem_append.mp he with h1 | h2
      · exact hevEnq e h1
      · exact hburst.2.1 e h2
    · intro t ht
      exact henq.2 t (hburst.2.2 t ht)

/-- Claim C4, amended: the RunningTasks dict always has at most one
entry per (node, path) (its keys stay pairwise distinct), and under the
proviso that the queue holds at most one triple per (node, path), that
no queued key is already running, that the schedule lists each
(node, path) once, and that the checksum of a scheduled task whose key
is already queued matches the queued triple, _run_new_tasks never pops
and dispatches a triple whose (node, path) already has a running entry.
Without the proviso the claim fails, as the counterexample shows: two
queued triples for one key that differ in checksum are both dispatched,
the second while the first is running. -/
theorem C4_no_double_dispatch_under_unique_queue_keys (backupPath : String)
    (clockMicros : ℕ → ℤ) (maxProcesses : ℕ) (now : ℤ)
    (schedule : List ScheduledTask) (st : RunState) (hinv : RunInv st)
    (hsched : (schedule.map fun s => (s.node_name, s.node_path)).Nodup)
    (hcoh : ∀ s ∈ schedule, ∀ t ∈ st.queue,
      (s.node_name, s.node_path) = tripleKey t →
        (s.node_name, s.node_path, s.last_checksum) = t) :
    (∀ e ∈ (run_new_tasks backupPath clockMicros maxProcesses now schedule st).2,
      eventDoubleDispatch e = false) ∧
    ((run_new_tasks backupPath clockMicros maxProcesses now schedule st).1.running.map
      Prod.fst).Nodup := by
  induction schedule generalizing st with
  | nil =>
      rw [run_new_tasks]
      exact ⟨by simp, hinv.1⟩
  | cons s rest ih =>
      rw [run_new_tasks]
      have hstep := run_new_tasks_step_inv backupPath clockMicros maxProcesses now st s
        hinv (hcoh s (List.mem_cons_self s rest))
      have hkeyfresh : (s.node_name, s.node_path) ∉
          rest.map fun r => (r.node_name, r.node_path) := by
        rw [List.map_cons, List.nodup_cons] at hsched
        exact hsched.1
      have hcoh' : ∀ r ∈ rest,
          ∀ t ∈ (run_new_tasks_step backupPath clockMicros maxProcesses now st s).1.queue,
            (r.node_name, r.node_path) = tripleKey t →
              (r.node_name, r.node_path, r.last_checksum) = t := by
        intro r hr t ht hkey
        rcases hstep.2.2 t ht with rfl | htq
        · exfalso
          apply hkeyfresh
          have hrs : (r.node_name, r.node_path) = (s.node_name, s.node_path) := hkey
          rw [← hrs]
          exact List.mem_map_of_mem _ hr
        · exact hcoh r (List.mem_cons_of_mem s hr) t htq hkey
      have hrest := ih _ hstep.1
        (by rw [List.map_cons, List.nodup_cons] at hsched; exact hsched.2) hcoh'
      refine ⟨?_, hrest.2⟩
      intro e he
      rcases List.mem_append.mp he with h1 | h2
      · exact hstep.2.1 e h1
      · exact hrest.1 e h2

/-- Claim C4 as frozen is refuted: the triple of a task is enqueued
while both slots are busy; after the two slots drain (the reaper empties
the running dict) the schedule carries a changed checksum, so a second
triple for the same (node, path) is enqueued beside the first, and the
dispatch burst then pops both, the second pop dispatching the key while
its first worker entry is running, overwriting it. -/
theorem C4_double_dispatch_counterexample :
    (run_new_tasks "/b" (fun _ => 0) 2 0 [c4TaskChecksum1] c4FullState).1.queue =
      [("n", "p", "c1")] ∧
    SchedulerEvent.dispatched ("n", "p") true 1 ∈
      (run_new_tasks "/b" (fun _ => 0) 2 0 [c4TaskChecksum2]
        (RunState.mk []
          (run_new_tasks "/b" (fun _ => 0) 2 0 [c4TaskChecksum1] c4FullState).1.queue
          0)).2 := by
  constructor
  · decide
  · decide

theorem C4_no_double_dispatch_witness :
    (RunInv (RunState.mk [] [("n", "p", "c1")] 0) ∧
      (([c4TaskChecksum1].map fun s => (s.node_name, s.node_path)).Nodup)) ∧
    ((∀ e ∈ (run_new_tasks "/b" (fun _ => 0) 2 0 [c4TaskChecksum1]
        (RunState.mk [] [("n", "p", "c1")] 0)).2, eventDoubleDispatch e = false) ∧
      ((run_new_tasks "/b" (fun _ => 0) 2 0 [c4TaskChecksum1]
        (RunState.mk [] [("n", "p", "c1")] 0)).1.running.map Prod.fst).Nodup) :=
  ⟨⟨⟨by decide, by decide, by decide⟩, by decide⟩,
    C4_no_double_dispatch_under_unique_queue_keys "/b" (fun _ => 0) 2 0
      [c4TaskChecksum1] (RunState.mk [] [("n", "p", "c1")] 0)
      ⟨by decide, by decide, by decide⟩ (by decide)
      (by
        intro s hs t ht hkey
        rcases List.mem_singleton.mp hs with rfl
        rcases List.mem_singleton.mp ht with rfl
        rfl)⟩

end BackupSpec
